import Mathlib

/-!
Verification development for the oarkflow/router dynamic HTTP routing layer.

The Go sources are shallowly embedded as follows:
* `utils.MatchRoute` (the pure path matcher) is embedded character-by-character
  over `List Char`.  Its `for` loop becomes the fuel-indexed `matchLoopF`; the
  fuel supplied by `utilsMatchRoute` strictly exceeds the loop's iteration
  bound (every iteration consumes at least one character of the pattern or of
  the path), so the fuel-0 branch is unreachable.
* The router's mutable state (`sync.Map` of per-method partitions, the routes
  it stores, groups, static routes) is embedded as pure data; Go map semantics
  are modelled by association lists with overwrite-on-insert, and each mutating
  method becomes a state-passing function.
* `fiber.Handler` values are identified by their runtime function-pointer
  identity in the Go code (`reflect.ValueOf(m).Pointer()`); handlers are
  therefore embedded as `Nat` identifiers, and their observable behaviour
  during dispatch is supplied by an environment `Nat → HandlerKind`.
-/

namespace RouterSpec

/-! ## Path matcher: utils.MatchRoute (src/unnamed/part_000) -/

/-- The inner helper `skipSlash` of `MatchRoute`: advance the cursor past
every consecutive slash character. -/
def skipSlash (s : List Char) : List Char := s.dropWhile (fun c => c = '/')

/-- Go `params[paramName] = paramVal`: map assignment with overwrite
semantics, on an association-list model of the parameter map. -/
def insertParam (ps : List (String × String)) (k v : String) :
    List (String × String) :=
  if ps.any (fun q => q.1 = k) then
    ps.map (fun q => if q.1 = k then (k, v) else q)
  else ps ++ [(k, v)]

/-- The `default` branch of the matcher's switch: compare literal characters
one by one until a slash is hit on either side or one string ends; a mismatch
of two non-slash characters aborts the whole match.  Returns the remaining
pattern and path on success. -/
def litLoop : List Char → List Char → Option (List Char × List Char)
  | pc :: p2, tc :: t2 =>
    if pc = '/' ∨ tc = '/' then some (pc :: p2, tc :: t2)
    else if pc = tc then litLoop p2 t2
    else none
  | p, t => some (p, t)

/-- The main loop of `utils.MatchRoute`.  The cursors `pi`/`ti` of the Go code
become the remaining suffixes `p`/`t`.  `fuel` bounds the number of loop
iterations; since each iteration removes at least one character from `p ++ t`,
any fuel above `p.length + t.length` is sufficient and the `0` branch is dead
code (see `matchLoopF_literal` whose proof re-establishes this bound). -/
def matchLoopF :
    Nat → List Char → List Char → List (String × String) →
      Option (List (String × String))
  | 0, _, _, _ => none
  | fuel + 1, p, t, params =>
    match p, t with
    | [], [] => some params
    | [], _ :: _ => none
    | _ :: _, [] => none
    | pc :: p2, tc :: t2 =>
      if pc = ':' then
        -- consume ":" and the name up to the next '/', and the path value
        -- up to the next '/'
        let paramName := (p2.takeWhile (fun c => ¬ c = '/')).asString
        let prest := p2.dropWhile (fun c => ¬ c = '/')
        let paramVal := ((tc :: t2).takeWhile (fun c => ¬ c = '/')).asString
        let trest := (tc :: t2).dropWhile (fun c => ¬ c = '/')
        matchLoopF fuel (skipSlash prest) (skipSlash trest)
          (insertParam params paramName paramVal)
      else if pc = '*' then
        -- skip '*', skip one following '/', bind the rest of the pattern as
        -- the name to the rest of the path; both cursors jump to the end, so
        -- the loop exits successfully
        let afterStar := if p2.head? = some '/' then p2.tail else p2
        some (insertParam params afterStar.asString (tc :: t2).asString)
      else
        match litLoop (pc :: p2) (tc :: t2) with
        | none => none
        | some (p3, t3) => matchLoopF fuel (skipSlash p3) (skipSlash t3) params

/-- Model of `utils.MatchRoute(pattern, path)`: skip leading slashes on both sides and
run the main loop.  `none` models the Go result `(false, nil)`; `some params`
models `(true, params)`. -/
def utilsMatchRoute (pattern path : String) :
    Option (List (String × String)) :=
  matchLoopF (pattern.length + path.length + 1)
    (skipSlash pattern.toList) (skipSlash path.toList) []

/-! ## Route table data model (src/unnamed/part_001) -/

/-- Model of `middlewareEntry`: a registered middleware together with the stable
identity used for removal.  In Go the identity is the function-pointer value
`reflect.ValueOf(m).Pointer()`; handlers are embedded as `Nat` identifiers,
so the identity of a handler is the handler value itself. -/
structure MiddlewareEntry where
  id : Nat
  handler : Nat
  deriving DecidableEq, Repr

/-- Model of `wrapMiddleware`: pair a handler with its pointer identity.  Two
registrations of the same underlying handler produce equal identities. -/
def wrapMiddleware (m : Nat) : MiddlewareEntry := ⟨m, m⟩

/-- Model of `middlewareIDsEqual(a, b)`: the pointer of `a` equals the stored id. -/
def middlewareIDsEqual (a : Nat) (b : MiddlewareEntry) : Bool := a = b.id

/-- Model of `Route`: one dynamic route.  The `Renderer` field carries no behaviour
relevant to the claims and is omitted. -/
structure Route where
  method : String
  path : String
  handler : Nat
  middlewares : List MiddlewareEntry
  deriving DecidableEq, Repr

/-- Association-list model of the Go map `exact map[string]*Route`:
lookup finds the (unique) entry with the given key. -/
def mapLookup (m : List (String × Route)) (k : String) : Option Route :=
  (m.find? (fun e => e.1 = k)).map (fun e => e.2)

/-- Map insertion with overwrite semantics (`mr.exact[path] = route`). -/
def mapInsert (m : List (String × Route)) (k : String) (v : Route) :
    List (String × Route) :=
  m.filter (fun e => ¬ e.1 = k) ++ [(k, v)]

/-- Map deletion (`delete(mr.exact, path)`). -/
def mapDelete (m : List (String × Route)) (k : String) :
    List (String × Route) :=
  m.filter (fun e => ¬ e.1 = k)

/-- Model of `methodRoutes`: the per-method partition of the route table — exact
literal paths in a map, parameterized patterns in an ordered slice. -/
structure MethodRoutes where
  exact : List (String × Route)
  params : List Route
  deriving DecidableEq, Repr

def emptyMR : MethodRoutes := ⟨[], []⟩

/-- Model of `Static`: one static route registration. -/
structure Static where
  pfx : String
  dir : String
  cacheControl : String
  directoryListing : Bool
  compressionLevel : Nat
  deriving DecidableEq, Repr

/-- Model of `Router`: the `sync.Map` from method to partition is modelled as a total
function defaulting to the empty partition (storing a freshly created empty
partition and not having stored one are observationally identical). -/
structure RouterT where
  routes : String → MethodRoutes
  globalMiddlewares : List MiddlewareEntry
  staticRoutes : List Static

def emptyRouter : RouterT := ⟨fun _ => emptyMR, [], []⟩

/-- Model of `strings.ToUpper`, computed on the character list so that the kernel can
evaluate it. -/
def toUpperStr (s : String) : String := (s.toList.map Char.toUpper).asString

/-- Model of `strings.Contains(s, ":")` specialised to a single character. -/
def containsChar (s : String) (c : Char) : Bool := s.toList.contains c

/-- Point update of the method-to-partition map (`dr.routes.Store`). -/
def updState (f : String → MethodRoutes) (k : String) (v : MethodRoutes) :
    String → MethodRoutes :=
  fun m => if m = k then v else f m

/-! ## Router mutation API (src/unnamed/part_001) -/

/-- Model of `Router.AddRoute`: uppercase the method, create the partition lazily,
wrap the middlewares, and classify the route by `strings.Contains(path, ":")`
into the parameterized slice (appended) or the exact map (overwriting). -/
def addRoute (rt : RouterT) (method path : String) (handler : Nat)
    (middlewares : List Nat) : RouterT :=
  let M := toUpperStr method
  let mr := rt.routes M
  let route : Route := ⟨M, path, handler, middlewares.map wrapMiddleware⟩
  let mr2 :=
    if containsChar path ':' then { mr with params := mr.params ++ [route] }
    else { mr with exact := mapInsert mr.exact path route }
  { rt with routes := updState rt.routes M mr2 }

/-- First-match extraction from the parameterized slice: Go's indexed loop
`for i, route := range mr.params { if route.Path == oldPath { ... } }`
followed by `append(mr.params[:i], mr.params[i+1:]...)`.  Returns the slice
with the first satisfying route removed, together with that route. -/
def extractFirst (p : Route → Bool) : List Route → Option (List Route × Route)
  | [] => none
  | r :: rest =>
    if p r then some (rest, r)
    else (extractFirst p rest).map (fun q => (r :: q.1, q.2))

/-- In-place update of the first route in the slice satisfying `p` (Go loops
over `mr.params` and returns after mutating the first `route.Path == path`). -/
def updateFirstRoute (p : Route → Bool) (f : Route → Route) :
    List Route → Option (List Route)
  | [] => none
  | r :: rest =>
    if p r then some (f r :: rest)
    else (updateFirstRoute p f rest).map (fun l => r :: l)

/-- Model of `Router.RenameRoute`: remove the route from its current filing,
re-classify by the new path (`strings.Contains(newPath, ":")`), and re-file
it; the route's own path field is set to the new path.  A missing route is a
logged no-op. -/
def renameRoute (rt : RouterT) (method oldPath newPath : String) : RouterT :=
  let M := toUpperStr method
  let mr := rt.routes M
  match mapLookup mr.exact oldPath with
  | some route =>
    let exact2 := mapDelete mr.exact oldPath
    let route2 := { route with path := newPath }
    let mr2 :=
      if containsChar newPath ':' then
        { mr with exact := exact2, params := mr.params ++ [route2] }
      else
        { mr with exact := mapInsert exact2 newPath route2 }
    { rt with routes := updState rt.routes M mr2 }
  | none =>
    match extractFirst (fun r => r.path = oldPath) mr.params with
    | some (others, route) =>
      let route2 := { route with path := newPath }
      let mr2 :=
        if containsChar newPath ':' then
          { mr with params := others ++ [route2] }
        else
          { mr with exact := mapInsert mr.exact newPath route2,
                    params := others }
      { rt with routes := updState rt.routes M mr2 }
    | none => rt

/-- Model of `Router.Use`: append wrapped middlewares to the global chain. -/
def useR (rt : RouterT) (mw : List Nat) : RouterT :=
  { rt with
      globalMiddlewares := rt.globalMiddlewares ++ mw.map wrapMiddleware }

/-- Model of `Router.AddMiddleware`: append wrapped middlewares to the route found by
exact lookup first, else to the first parameterized route with that literal
path; a missing route is a logged no-op. -/
def addMiddleware (rt : RouterT) (method path : String) (ms : List Nat) :
    RouterT :=
  let M := toUpperStr method
  let mr := rt.routes M
  let extend := fun (r : Route) =>
    { r with middlewares := r.middlewares ++ ms.map wrapMiddleware }
  match mapLookup mr.exact path with
  | some r =>
    let mr2 := { mr with exact := mapInsert mr.exact path (extend r) }
    { rt with routes := updState rt.routes M mr2 }
  | none =>
    match updateFirstRoute (fun r => r.path = path) extend mr.params with
    | some ps => { rt with routes := updState rt.routes M ({ mr with params := ps }) }
    | none => rt

/-- The `removeFromRoute` closure of `Router.RemoveMiddleware`: keep exactly
the entries whose identity matches none of the handlers being removed. -/
def removeFromRoute (ms : List Nat) (r : Route) : Route :=
  let kept :=
    r.middlewares.filter (fun e => ¬ ms.any (fun rm => middlewareIDsEqual rm e))
  { r with middlewares := kept }

/-- Model of `Router.RemoveMiddleware`: apply `removeFromRoute` to the route found by
exact lookup first, else to the first parameterized route with that literal
path; a missing route is a logged no-op. -/
def removeMiddleware (rt : RouterT) (method path : String) (ms : List Nat) :
    RouterT :=
  let M := toUpperStr method
  let mr := rt.routes M
  match mapLookup mr.exact path with
  | some r =>
    let mr2 := { mr with exact := mapInsert mr.exact path (removeFromRoute ms r) }
    { rt with routes := updState rt.routes M mr2 }
  | none =>
    match updateFirstRoute (fun r => r.path = path) (removeFromRoute ms)
        mr.params with
    | some ps => { rt with routes := updState rt.routes M ({ mr with params := ps }) }
    | none => rt

/-- Model of `Router.Static`: append a static route registration. -/
def addStatic (rt : RouterT) (pfx dir : String) : RouterT :=
  { rt with staticRoutes := rt.staticRoutes ++ [⟨pfx, dir, "", false, 0⟩] }

/-- Model of `Router.RemoveRoute`: delete from the exact map, else remove the first
parameterized route with that literal path. -/
def removeRoute (rt : RouterT) (method path : String) : RouterT :=
  let M := toUpperStr method
  let mr := rt.routes M
  match mapLookup mr.exact path with
  | some _ =>
    let mr2 := { mr with exact := mapDelete mr.exact path }
    { rt with routes := updState rt.routes M mr2 }
  | none =>
    match extractFirst (fun r => r.path = path) mr.params with
    | some (others, _) =>
      { rt with routes := updState rt.routes M ({ mr with params := others }) }
    | none => rt

/-! ## Route lookup (Router.MatchRoute) -/

/-- The parameterized scan of `Router.MatchRoute`: try the routes in slice
(insertion) order and return the first whose pattern matches the path. -/
def firstMatch (path : String) :
    List Route → Option (Route × List (String × String))
  | [] => none
  | r :: rest =>
    match utilsMatchRoute r.path path with
    | some ps => some (r, ps)
    | none => firstMatch path rest

/-- Model of `Router.MatchRoute(method, path)`: exact map first (with `nil` params,
modelled as `none`), then the parameterized routes in insertion order.  The
method is used as given (dispatch passes the already-uppercase HTTP method). -/
def routerMatchRoute (rt : RouterT) (method path : String) :
    Option (Route × Option (List (String × String))) :=
  let mr := rt.routes method
  match mapLookup mr.exact path with
  | some route => some (route, none)
  | none => (firstMatch path mr.params).map (fun q => (q.1, some q.2))

/-! ## Groups (src/unnamed/part_001) -/

/-- Model of `GroupRoute`: a route descriptor kept by its group. -/
structure GroupRoute where
  method : String
  relPath : String
  handler : Nat
  routeMWs : List MiddlewareEntry
  effectivePath : String
  deriving DecidableEq, Repr

/-- Model of `Group`: prefix, group middlewares and child route descriptors.  The Go
struct holds a `*Router` back-pointer; group operations are modelled as
functions over the pair (group, router). -/
structure GroupT where
  pfx : String
  middlewares : List MiddlewareEntry
  routes : List GroupRoute
  deriving DecidableEq, Repr

/-- Model of `Router.Group`: a fresh group with the given prefix and middlewares. -/
def routerGroup (pfx : String) (m : List Nat) : GroupT :=
  ⟨pfx, m.map wrapMiddleware, []⟩

/-- Model of `Group.Group`: subgroup with accumulated prefix and copied middlewares
plus the new ones; it starts with no routes. -/
def groupSub (g : GroupT) (pfx : String) (m : List Nat) : GroupT :=
  ⟨g.pfx ++ pfx, g.middlewares ++ m.map wrapMiddleware, []⟩

/-- Model of `Group.AddRoute`: derive the effective path `g.prefix + relPath`, record
the descriptor, and register the route with the router using the flattened
middleware chain (group middlewares then route middlewares). -/
def groupAddRoute (g : GroupT) (rt : RouterT) (method relPath : String)
    (handler : Nat) (m : List Nat) : GroupT × RouterT :=
  let effectivePath := g.pfx ++ relPath
  let routeMWs := m.map wrapMiddleware
  let gr : GroupRoute :=
    ⟨toUpperStr method, relPath, handler, routeMWs, effectivePath⟩
  let g2 := { g with routes := g.routes ++ [gr] }
  let combined :=
    g.middlewares.map (fun e => e.handler) ++ routeMWs.map (fun e => e.handler)
  (g2, addRoute rt method effectivePath handler combined)

/-- One iteration of `Group.ChangePrefix`'s loop: rename the route in the
router from its old effective path to `newPrefix + relPath` and record the
updated descriptor. -/
def changeStep (newPfx : String) (acc : List GroupRoute × RouterT)
    (gr : GroupRoute) : List GroupRoute × RouterT :=
  let newEffective := newPfx ++ gr.relPath
  (acc.1 ++ [{ gr with effectivePath := newEffective }],
   renameRoute acc.2 gr.method gr.effectivePath newEffective)

def changePfx (g : GroupT) (rt : RouterT) (newPfx : String) :
    GroupT × RouterT :=
  if g.pfx = newPfx then (g, rt)
  else
    let res := g.routes.foldl (changeStep newPfx) ([], rt)
    ({ g with pfx := newPfx, routes := res.1 }, res.2)

-- `changePfx` models `Group.ChangePrefix`: a no-op when the prefix is
-- unchanged, else every child is renamed in the router and re-derived.

/-! ## Static path resolution (Router.dispatch, lines 255-269 of part_001)

`filepath.Clean`, `filepath.Join` and `filepath.Abs` are Go standard library
collaborators; they are modelled by their documented lexical semantics
(segment-wise resolution of `.` and `..`, with rooted paths never escaping
the root, `Join` = `Clean` of the slash-concatenation, and `Abs` = `Clean`
for rooted paths, else `Join` of the working directory and the path). -/

/-- Model of `strings.Split(s, "/")` on characters. -/
def splitSlash : List Char → List (List Char)
  | [] => [[]]
  | '/' :: rest => [] :: splitSlash rest
  | c :: rest =>
    match splitSlash rest with
    | s :: ss => (c :: s) :: ss
    | [] => [[c]]

/-- Join segments back with single slashes. -/
def joinSlash : List (List Char) → List Char
  | [] => []
  | [s] => s
  | s :: rest => s ++ '/' :: joinSlash rest

/-- Model of `filepath.Clean` (lexical processing of `.` and `..` segments). -/
def goClean (s : String) : String :=
  let cs := s.toList
  if cs = [] then "."
  else
    let rooted := cs.head? = some '/'
    let segs :=
      (splitSlash cs).filter (fun seg => ¬ seg = [] ∧ ¬ seg = ['.'])
    let step := fun (acc : List (List Char)) (seg : List Char) =>
      if seg = ['.', '.'] then
        if ¬ acc = [] ∧ ¬ acc.getLast? = some ['.', '.'] then acc.dropLast
        else if rooted then acc
        else acc ++ [seg]
      else acc ++ [seg]
    let out := segs.foldl step []
    let joined := joinSlash out
    if rooted then ('/' :: joined).asString
    else if joined = [] then "." else joined.asString

/-- Model of `filepath.Join(a, b)`: slash-concatenation of the non-empty parts,
cleaned. -/
def goJoin (a b : String) : String :=
  if a = "" ∧ b = "" then ""
  else if a = "" then goClean b
  else if b = "" then goClean a
  else goClean (a ++ "/" ++ b)

/-- Model of `filepath.Abs(p)` relative to working directory `wd` (never errors in
the model). -/
def goAbs (wd p : String) : String :=
  if p.toList.head? = some '/' then goClean p else goJoin wd p

/-- Model of `strings.HasPrefix(s, p)`, computed on the character lists so that the
kernel can evaluate it. -/
def hasPrefixStr (s p : String) : Bool := p.toList.isPrefixOf s.toList

/-- Model of `strings.TrimPrefix`. -/
def trimPfx (s p : String) : String :=
  if hasPrefixStr s p then (s.toList.drop p.toList.length).asString else s

/-- Outcome of the containment check a static route performs before any
filesystem access. -/
inductive StaticStep where
  | noPrefix
  | forbidden
  | proceed (filePath absFile absDir : String)
  deriving DecidableEq, Repr

/-- The static branch of `Router.dispatch` up to the path-traversal check:
prefix test, strip the prefix, `Clean` the relative path, `Join` with the
configured directory, resolve both to absolute paths, and reject with 403
unless `strings.HasPrefix(absFile, absDir)`. -/
def staticResolve (wd : String) (sr : Static) (path : String) : StaticStep :=
  if hasPrefixStr path sr.pfx then
    let relativePath := trimPfx path sr.pfx
    let cleanRelative := goClean relativePath
    let filePath := goJoin sr.dir cleanRelative
    let absDir := goAbs wd sr.dir
    let absFile := goAbs wd filePath
    if hasPrefixStr absFile absDir then .proceed filePath absFile absDir
    else .forbidden
  else .noPrefix

/-- The spec's notion of `absFile` lying within the directory `absDir`:
equal to it, or strictly below it (a path component boundary away). -/
def specWithin (absDir absFile : String) : Bool :=
  absFile = absDir ∨ hasPrefixStr absFile (absDir ++ "/")

/-! ## Dispatch and the middleware chain (Router.dispatch, Route.Serve, Next)

`Next` (part_001 lines 180-196) reads the chain and cursor from the
request-scoped locals, is a successful no-op past the end of the chain,
and otherwise advances the cursor and invokes the handler that was at the
cursor position, returning whatever that handler returns.

Handlers are abstract Go closures; their behaviour is supplied by an
environment mapping the handler identifier to one of four shapes:
`hNext` records its own invocation and then calls `Next`, returning its
result; `hStop` records its invocation and returns `nil` without calling
`Next`; `hSend` additionally writes a response body; `hErr` returns an
error.  Each runner below transcribes `Next`'s loop: the recursion over the
rest of the chain is exactly the nested `Next` call made by an `hNext`
handler on the advanced cursor. -/

deriving instance DecidableEq for Except

/-- Observable behaviour of a handler. -/
inductive HandlerKind where
  | hNext
  | hStop
  | hSend (body : String)
  | hErr (msg : String)
  deriving DecidableEq, Repr

/-- One entry of the `chain_handlers` local installed by `dispatch`:
either a registered handler or the `nextFunc` closure that performs route
lookup and serving. -/
inductive ChainEntry where
  | h (id : Nat)
  | routeFn
  deriving DecidableEq, Repr

/-- The request-scoped state: the fiber context locals used by the router
(`chain_handlers`, `chain_index`, `params`) together with the observable
request and response data and a log of handler invocations. -/
structure Ctx where
  method : String
  path : String
  acceptEncoding : String
  chain : List ChainEntry
  idx : Nat
  log : List Nat
  params : List (String × String)
  paramsSet : Bool
  status : Nat
  body : String
  contentEncoding : Option String
  deriving DecidableEq, Repr

/-- Containment of `sub` as a contiguous sublist of `s`. -/
def infixBool (sub : List Char) : List Char → Bool
  | [] => sub.isPrefixOf []
  | c :: rest => sub.isPrefixOf (c :: rest) || infixBool sub rest

/-- Model of `strings.Contains` (substring containment). -/
def containsSubstr (s sub : String) : Bool := infixBool sub.toList s.toList

/-- Model of `compressData`: consult `Accept-Encoding`; prefer Brotli, then gzip, else
pass through, and report the `Content-Encoding` to set.  The actual byte
compressors are external utility collaborators and are modelled as
content-preserving (their error fallback never fires in the model). -/
def compressData (acceptEncoding data : String) : String × Option String :=
  if containsSubstr acceptEncoding "br" then (data, some "br")
  else if containsSubstr acceptEncoding "gzip" then (data, some "gzip")
  else (data, none)

/-- Model of `Next` walking a chain of plain handlers (the shape installed by
`Route.Serve`): on `hid :: rest`, advance the cursor, invoke the handler
`hid`; an `hNext` handler calls `Next` again, which continues on `rest`. -/
def runChainH (env : Nat → HandlerKind) :
    List Nat → Ctx → Except String Ctx
  | [], c => .ok c
  | hid :: rest, c =>
    let c2 := { c with idx := c.idx + 1, log := c.log ++ [hid] }
    match env hid with
    | .hNext => runChainH env rest c2
    | .hStop => .ok c2
    | .hSend b => .ok { c2 with body := b }
    | .hErr m => .error m

/-- The body-compression post-step of `Route.Serve`: when the response body
is non-empty, compress it according to `Accept-Encoding` and set the
`Content-Encoding` header. -/
def postCompress (c : Ctx) : Ctx :=
  if c.body = "" then c
  else
    let comp := compressData c.acceptEncoding c.body
    { c with body := comp.1, contentEncoding := comp.2 }

/-- Model of `Route.Serve`: install the route-specific chain (route middlewares then
the terminal handler) in the locals, run it from index 0 via `Next`, wrap a
chain error as `chain error: ...`, then apply the body-compression post-step
when the response body is non-empty. -/
def serveRouteM (env : Nat → HandlerKind) (r : Route) (c : Ctx) :
    Except String Ctx :=
  let ids := r.middlewares.map (fun e => e.handler) ++ [r.handler]
  let c1 := { c with chain := ids.map ChainEntry.h, idx := 0 }
  match runChainH env ids c1 with
  | .error e => .error ("chain error: " ++ e)
  | .ok c2 => .ok (postCompress c2)

/-- The static-route loop of `dispatch`'s `nextFunc` after no dynamic route
matched: first prefix hit failing the containment check returns 403; a
prefix hit whose resolved file exists is served (with the compression
policy applied); otherwise the loop continues.  `fs` models the files the
OS can read (directory listings, the static cache and cache-control headers
are outside the modelled fragment; no claim depends on them). -/
def serveStatics (fs : String → Option String) (wd : String) :
    List Static → Ctx → Option Ctx
  | [], _ => none
  | sr :: rest, c =>
    match staticResolve wd sr c.path with
    | .noPrefix => serveStatics fs wd rest c
    | .forbidden => some { c with status := 403, body := "Forbidden" }
    | .proceed filePath _ _ =>
      match fs filePath with
      | some content =>
        let comp := compressData c.acceptEncoding content
        some { c with status := 200, body := comp.1, contentEncoding := comp.2 }
      | none => serveStatics fs wd rest c

/-- The `nextFunc` closure of `Router.dispatch`: look up the dynamic route
for the request's method and path; store the parameter map in the locals
when it is non-nil and serve the route; otherwise fall through to the
static routes and finally to the 404 response (the configurable
`NotFoundHandler` is modelled as unset). -/
def nextFuncM (rt : RouterT) (fs : String → Option String) (wd : String)
    (env : Nat → HandlerKind) (c : Ctx) : Except String Ctx :=
  match routerMatchRoute rt c.method c.path with
  | some q =>
    let c2 := match q.2 with
      | some ps => { c with params := ps, paramsSet := true }
      | none => c
    serveRouteM env q.1 c2
  | none =>
    match serveStatics fs wd rt.staticRoutes c with
    | some c2 => .ok c2
    | none => .ok { c with status := 404, body := "Dynamic route not found" }

/-- Model of `Next` walking the chain installed by `dispatch` (global middlewares
followed by the `nextFunc` sentinel). -/
def runChainTop (rt : RouterT) (fs : String → Option String) (wd : String)
    (env : Nat → HandlerKind) : List ChainEntry → Ctx → Except String Ctx
  | [], c => .ok c
  | .h hid :: rest, c =>
    let c2 := { c with idx := c.idx + 1, log := c.log ++ [hid] }
    match env hid with
    | .hNext => runChainTop rt fs wd env rest c2
    | .hStop => .ok c2
    | .hSend b => .ok { c2 with body := b }
    | .hErr m => .error m
  | .routeFn :: _, c =>
    nextFuncM rt fs wd env { c with idx := c.idx + 1 }

/-- Model of `Next` on the dispatch-phase chain: read the cursor and chain from the
locals and continue from the cursor position. -/
def NextM (rt : RouterT) (fs : String → Option String) (wd : String)
    (env : Nat → HandlerKind) (c : Ctx) : Except String Ctx :=
  runChainTop rt fs wd env (c.chain.drop c.idx) c

/-- Model of `Router.dispatch`: snapshot the global middleware chain, append
`nextFunc`, install the chain with cursor 0 in the locals, and start `Next`. -/
def dispatchRun (rt : RouterT) (fs : String → Option String) (wd : String)
    (env : Nat → HandlerKind) (c : Ctx) : Except String Ctx :=
  let chain :=
    rt.globalMiddlewares.map (fun e => ChainEntry.h e.handler) ++
      [ChainEntry.routeFn]
  NextM rt fs wd env { c with chain := chain, idx := 0 }

/-! ## The historical `Router.Next` (src/router.go lines 365-381)

The snapshot router's `Next` differs from the current one in exactly one
point: a handler error is wrapped as `middleware[idx] error: ...` with the
index of the failing chain entry. -/

/-- Request state of the snapshot router (its chain holds plain handlers). -/
structure CtxRG where
  chain : List Nat
  idx : Nat
  log : List Nat
  body : String
  deriving DecidableEq, Repr

/-- The snapshot `Router.Next`: identical control flow, but the error of the
handler invoked at index `c.idx` is wrapped with that position. -/
def runChainRG (env : Nat → HandlerKind) :
    List Nat → CtxRG → Except String CtxRG
  | [], c => .ok c
  | hid :: rest, c =>
    let c2 := { c with idx := c.idx + 1, log := c.log ++ [hid] }
    match env hid with
    | .hNext =>
      match runChainRG env rest c2 with
      | .error e => .error ("middleware[" ++ toString c.idx ++ "] error: " ++ e)
      | .ok c3 => .ok c3
    | .hStop => .ok c2
    | .hSend b => .ok { c2 with body := b }
    | .hErr m => .error ("middleware[" ++ toString c.idx ++ "] error: " ++ m)

/-- The snapshot `Next` from the stored cursor. -/
def NextRG (env : Nat → HandlerKind) (c : CtxRG) : Except String CtxRG :=
  runChainRG env (c.chain.drop c.idx) c

/-- The claim's normalization of a path: collapse repeated slashes and drop
leading and trailing ones, i.e. keep exactly the non-empty segments.  This
definition follows the spec's words ("normalizing repeated/leading/trailing
slashes") and is compared against the behaviour of the embedded matcher. -/
def specNormalize (s : String) : String :=
  (joinSlash ((splitSlash s.toList).filter (fun seg => ¬ seg = []))).asString

/-! ## Lemmas about the path matcher -/

lemma skipSlash_length (s : List Char) : (skipSlash s).length ≤ s.length :=
  (List.dropWhile_sublist _).length_le

lemma skipSlash_subset (s : List Char) : skipSlash s ⊆ s :=
  (List.dropWhile_sublist _).subset

lemma skipSlash_head (s : List Char) : (skipSlash s).head? ≠ some '/' := by
  induction s with
  | nil => simp [skipSlash]
  | cons c rest ih =>
    by_cases hc : c = '/'
    · simpa [skipSlash, hc] using ih
    · simp [skipSlash, List.dropWhile_cons, hc]

lemma skipSlash_filter (s : List Char) :
    (skipSlash s).filter (fun c => ¬ c = '/') =
      s.filter (fun c => ¬ c = '/') := by
  induction s with
  | nil => rfl
  | cons c rest ih =>
    by_cases hc : c = '/'
    · simpa [skipSlash, hc] using ih
    · simp [skipSlash, List.dropWhile_cons, hc]

lemma litLoop_sublist (p : List Char) :
    ∀ t p2 t2, litLoop p t = some (p2, t2) →
      List.Sublist p2 p ∧ List.Sublist t2 t := by
  induction p with
  | nil =>
    intro t p2 t2 h
    cases t <;> simp [litLoop] at h <;> simp [h.1, h.2]
  | cons pc prest ih =>
    intro t p2 t2 h
    cases t with
    | nil =>
      simp [litLoop] at h
      simp [h.1, h.2]
    | cons tc trest =>
      by_cases hs : pc = '/' ∨ tc = '/'
      · rw [litLoop, if_pos hs] at h
        injection h with h2
        injection h2 with ha hb
        simp [← ha, ← hb]
      · by_cases he : pc = tc
        · rw [litLoop, if_neg hs, if_pos he] at h
          rcases ih trest p2 t2 h with ⟨h1, h2⟩
          exact ⟨h1.cons pc, h2.cons tc⟩
        · rw [litLoop, if_neg hs, if_neg he] at h
          cases h

lemma filter_cons_nonslash (c : Char) (l : List Char) (hc : ¬ c = '/') :
    (c :: l).filter (fun x => ¬ x = '/') =
      c :: l.filter (fun x => ¬ x = '/') := by
  simp [List.filter_cons, hc]

lemma litLoop_none_filter (p : List Char) :
    ∀ t, litLoop p t = none →
      p.filter (fun c => ¬ c = '/') ≠ t.filter (fun c => ¬ c = '/') := by
  induction p with
  | nil => intro t h; cases t <;> simp [litLoop] at h
  | cons pc prest ih =>
    intro t h
    cases t with
    | nil => simp [litLoop] at h
    | cons tc trest =>
      by_cases hs : pc = '/' ∨ tc = '/'
      · rw [litLoop, if_pos hs] at h; cases h
      · push_neg at hs
        by_cases he : pc = tc
        · rw [litLoop, if_neg (by tauto), if_pos he] at h
          have hne := ih trest h
          rw [filter_cons_nonslash pc prest hs.1,
            filter_cons_nonslash tc trest hs.2]
          intro hcontra
          injection hcontra with h1 h2
          exact hne h2
        · rw [litLoop, if_neg (by tauto), if_neg he] at h
          rw [filter_cons_nonslash pc prest hs.1,
            filter_cons_nonslash tc trest hs.2]
          intro hcontra
          injection hcontra with h1 h2
          exact he h1

lemma litLoop_some_filter (p : List Char) :
    ∀ t p2 t2, litLoop p t = some (p2, t2) →
      (p.filter (fun c => ¬ c = '/') = t.filter (fun c => ¬ c = '/') ↔
       p2.filter (fun c => ¬ c = '/') = t2.filter (fun c => ¬ c = '/')) := by
  induction p with
  | nil =>
    intro t p2 t2 h
    cases t with
    | nil =>
      simp only [litLoop] at h
      injection h with h2
      injection h2 with ha hb
      rw [← ha, ← hb]
    | cons tc trest =>
      simp only [litLoop] at h
      injection h with h2
      injection h2 with ha hb
      rw [← ha, ← hb]
  | cons pc prest ih =>
    intro t p2 t2 h
    cases t with
    | nil =>
      simp only [litLoop] at h
      injection h with h2
      injection h2 with ha hb
      rw [← ha, ← hb]
    | cons tc trest =>
      by_cases hs : pc = '/' ∨ tc = '/'
      · rw [litLoop, if_pos hs] at h
        injection h with h2
        injection h2 with ha hb
        rw [← ha, ← hb]
      · push_neg at hs
        by_cases he : pc = tc
        · rw [litLoop, if_neg (by tauto), if_pos he] at h
          have hiff := ih trest p2 t2 h
          rw [filter_cons_nonslash pc prest hs.1,
            filter_cons_nonslash tc trest hs.2]
          constructor
          · intro hcontra
            injection hcontra with h1 h2
            exact hiff.1 h2
          · intro h2
            rw [he, hiff.2 h2]
        · rw [litLoop, if_neg (by tauto), if_neg he] at h
          cases h

/-- On patterns free of `:` and `*`, the matcher's loop succeeds exactly when
pattern and path agree after deleting every slash; parameters are untouched.
The fuel hypothesis re-establishes that the fuel chosen by `utilsMatchRoute`
is sufficient: each iteration consumes at least one character. -/
lemma matchLoopF_literal :
    ∀ (fuel : Nat) (p t : List Char) (ps : List (String × String)),
      p.length + t.length < fuel →
      (∀ c ∈ p, ¬ c = ':' ∧ ¬ c = '*') →
      p.head? ≠ some '/' → t.head? ≠ some '/' →
      matchLoopF fuel p t ps =
        if p.filter (fun c => ¬ c = '/') = t.filter (fun c => ¬ c = '/')
        then some ps else none := by
  intro fuel
  induction fuel with
  | zero => intro p t ps hlen _ _ _; omega
  | succ fuel ih =>
    intro p t ps hlen hp hph hth
    cases p with
    | nil =>
      cases t with
      | nil => simp [matchLoopF]
      | cons tc t2 =>
        have htc : ¬ tc = '/' := by simpa using hth
        rw [filter_cons_nonslash tc t2 htc]
        simp [matchLoopF]
    | cons pc p2 =>
      have hpc := hp pc (by simp)
      have hpcs : ¬ pc = '/' := by simpa using hph
      cases t with
      | nil =>
        rw [filter_cons_nonslash pc p2 hpcs]
        simp [matchLoopF]
      | cons tc t2 =>
        have htcs : ¬ tc = '/' := by simpa using hth
        rw [matchLoopF, if_neg hpc.1, if_neg hpc.2]
        rcases hlit : litLoop (pc :: p2) (tc :: t2) with _ | ⟨p3, t3⟩
        · rw [if_neg (litLoop_none_filter (pc :: p2) (tc :: t2) hlit)]
        · -- litLoop entered the character-comparison branch, so the heads
          -- were equal and the remainders come from the tails
          have he : pc = tc := by
            by_contra he
            rw [litLoop, if_neg (by tauto), if_neg he] at hlit
            cases hlit
          have hlit2 : litLoop p2 t2 = some (p3, t3) := by
            rw [litLoop, if_neg (by tauto), if_pos he] at hlit
            exact hlit
          rcases litLoop_sublist p2 t2 p3 t3 hlit2 with ⟨hsp, hst⟩
          have hlen2 : (skipSlash p3).length + (skipSlash t3).length < fuel := by
            have h1 := skipSlash_length p3
            have h2 := skipSlash_length t3
            have h3 := hsp.length_le
            have h4 := hst.length_le
            simp only [List.length_cons] at hlen
            omega
          have hp2 : ∀ c ∈ skipSlash p3, ¬ c = ':' ∧ ¬ c = '*' := by
            intro c hc
            exact hp c (List.mem_cons_of_mem pc (hsp.subset (skipSlash_subset p3 hc)))
          change matchLoopF fuel (skipSlash p3) (skipSlash t3) ps = _
          rw [ih (skipSlash p3) (skipSlash t3) ps hlen2 hp2
            (skipSlash_head p3) (skipSlash_head t3),
            skipSlash_filter p3, skipSlash_filter t3]
          have hiff := litLoop_some_filter (pc :: p2) (tc :: t2) p3 t3 hlit
          by_cases hfc : p3.filter (fun c => ¬ c = '/') =
              t3.filter (fun c => ¬ c = '/')
          · rw [if_pos hfc, if_pos (hiff.2 hfc)]
          · rw [if_neg hfc, if_neg (fun hcon => hfc (hiff.1 hcon))]

/-- Membership transport into the slash-skipped character list of a string. -/
lemma mem_skipSlash_toList (s : String) (c : Char)
    (hc : c ∈ skipSlash s.toList) : c ∈ s.toList :=
  skipSlash_subset s.toList hc

/-- The matcher on a pattern without `:` and `*`: success is exactly equality
of pattern and path after deleting every slash character, and failure
returns no parameters. -/
lemma utilsMatchRoute_literal (pattern path : String)
    (hp : ∀ c ∈ pattern.toList, ¬ c = ':' ∧ ¬ c = '*') :
    utilsMatchRoute pattern path =
      if pattern.toList.filter (fun c => ¬ c = '/') =
          path.toList.filter (fun c => ¬ c = '/')
      then some [] else none := by
  rw [utilsMatchRoute]
  have hlen : (skipSlash pattern.toList).length +
      (skipSlash path.toList).length < pattern.length + path.length + 1 := by
    have h1 := skipSlash_length pattern.toList
    have h2 := skipSlash_length path.toList
    have h3 : pattern.toList.length = pattern.length := rfl
    have h4 : path.toList.length = path.length := rfl
    omega
  rw [matchLoopF_literal (pattern.length + path.length + 1)
    (skipSlash pattern.toList) (skipSlash path.toList) [] hlen
    (fun c hc => hp c (mem_skipSlash_toList pattern c hc))
    (skipSlash_head pattern.toList) (skipSlash_head path.toList),
    skipSlash_filter pattern.toList, skipSlash_filter path.toList]

/-! ## Classification invariant of the route table -/

/-- The partition is correctly classified: every exact key is free of `:`
and stores a route whose path field is that key, and every parameterized
route's path contains `:`. -/
def invMR (mr : MethodRoutes) : Prop :=
  (∀ e ∈ mr.exact, containsChar e.1 ':' = false ∧ e.2.path = e.1) ∧
  (∀ r ∈ mr.params, containsChar r.path ':' = true)

/-- Classification invariant over every method partition. -/
def invRouter (rt : RouterT) : Prop := ∀ m, invMR (rt.routes m)

lemma mem_mapInsert {m : List (String × Route)} {k : String} {v : Route}
    {e : String × Route} (h : e ∈ mapInsert m k v) :
    e = (k, v) ∨ e ∈ m := by
  rcases List.mem_append.1 h with h1 | h1
  · exact Or.inr (List.mem_of_mem_filter h1)
  · simp at h1
    exact Or.inl (by rw [h1])

lemma mem_mapDelete {m : List (String × Route)} {k : String}
    {e : String × Route} (h : e ∈ mapDelete m k) : e ∈ m :=
  List.mem_of_mem_filter h

lemma mapLookup_mem {m : List (String × Route)} {k : String} {r : Route}
    (h : mapLookup m k = some r) : (k, r) ∈ m := by
  rw [mapLookup] at h
  rcases Option.map_eq_some'.1 h with ⟨e, he, hr⟩
  have h1 := List.find?_some he
  have h2 := List.mem_of_find?_eq_some he
  simp at h1
  have : e = (k, r) := by
    cases e
    simp at h1 hr ⊢
    exact ⟨h1, hr⟩
  rw [← this]
  exact h2

lemma extractFirst_mem {p : Route → Bool} :
    ∀ {l rest : List Route} {r : Route},
      extractFirst p l = some (rest, r) →
      r ∈ l ∧ p r = true ∧ ∀ x ∈ rest, x ∈ l := by
  intro l
  induction l with
  | nil => intro rest r h; cases h
  | cons a l2 ih =>
    intro rest r h
    by_cases hp : p a
    · rw [extractFirst, if_pos hp] at h
      injection h with h2
      injection h2 with ha hb
      refine ⟨by rw [← hb]; simp, by rw [← hb]; exact hp, ?_⟩
      intro x hx
      rw [← ha] at hx
      exact List.mem_cons_of_mem a hx
    · rw [extractFirst, if_neg hp] at h
      rcases Option.map_eq_some'.1 h with ⟨⟨rest2, r2⟩, hrec, heq⟩
      injection heq with ha hb
      rcases ih hrec with ⟨h1, h2, h3⟩
      refine ⟨by rw [← hb]; exact List.mem_cons_of_mem a h1,
        by rw [← hb]; exact h2, ?_⟩
      intro x hx
      rw [← ha] at hx
      rcases List.mem_cons.1 hx with h4 | h4
      · rw [h4]; simp
      · exact List.mem_cons_of_mem a (h3 x h4)

lemma invRouter_addRoute (rt : RouterT) (hinv : invRouter rt)
    (method path : String) (handler : Nat) (ms : List Nat) :
    invRouter (addRoute rt method path handler ms) := by
  intro m
  rcases hinv (toUpperStr method) with ⟨hex, hpar⟩
  rw [addRoute]
  simp only [updState]
  by_cases hm : m = toUpperStr method
  · rw [if_pos hm]
    by_cases hc : containsChar path ':'
    · rw [if_pos hc]
      refine ⟨hex, ?_⟩
      intro r hr
      rcases List.mem_append.1 hr with h1 | h1
      · exact hpar r h1
      · simp at h1
        rw [h1, hc]
    · rw [if_neg hc]
      refine ⟨?_, hpar⟩
      intro e he
      rcases mem_mapInsert he with h1 | h1
      · rw [h1]
        exact ⟨by simpa using hc, rfl⟩
      · exact hex e h1
  · rw [if_neg hm]
    exact hinv m

lemma invRouter_renameRoute (rt : RouterT) (hinv : invRouter rt)
    (method oldPath newPath : String) :
    invRouter (renameRoute rt method oldPath newPath) := by
  rcases hinv (toUpperStr method) with ⟨hex, hpar⟩
  rw [renameRoute]
  rcases hl : mapLookup (rt.routes (toUpperStr method)).exact oldPath with
    _ | route
  · rcases he : extractFirst (fun r => r.path = oldPath)
        (rt.routes (toUpperStr method)).params with _ | ⟨others, route⟩
    · exact hinv
    · rcases extractFirst_mem he with ⟨hmem, _, hothers⟩
      intro m
      simp only [updState]
      by_cases hm : m = toUpperStr method
      · rw [if_pos hm]
        by_cases hc : containsChar newPath ':'
        · rw [if_pos hc]
          refine ⟨hex, ?_⟩
          intro r hr
          rcases List.mem_append.1 hr with h1 | h1
          · exact hpar r (hothers r h1)
          · simp at h1
            rw [h1, hc]
        · rw [if_neg hc]
          constructor
          · intro e hee
            rcases mem_mapInsert hee with h1 | h1
            · rw [h1]
              exact ⟨by simpa using hc, rfl⟩
            · exact hex e h1
          · intro r hr
            exact hpar r (hothers r hr)
      · rw [if_neg hm]
        exact hinv m
  · intro m
    simp only [updState]
    by_cases hm : m = toUpperStr method
    · rw [if_pos hm]
      by_cases hc : containsChar newPath ':'
      · rw [if_pos hc]
        constructor
        · intro e hee
          exact hex e (mem_mapDelete hee)
        · intro r hr
          rcases List.mem_append.1 hr with h1 | h1
          · exact hpar r h1
          · simp at h1
            rw [h1, hc]
      · rw [if_neg hc]
        refine ⟨?_, hpar⟩
        intro e hee
        rcases mem_mapInsert hee with h1 | h1
        · rw [h1]
          exact ⟨by simpa using hc, rfl⟩
        · exact hex e (mem_mapDelete h1)
    · rw [if_neg hm]
      exact hinv m

/-! ## Claims C1, C2, C8 -/

/-- Claim C1, counterexample: the claim says a route whose pattern contains a
parameter or wildcard segment is filed only in the parameterized sequence,
but `AddRoute` classifies by the presence of `:` alone, so the wildcard-only
pattern `/files/*rest` is filed in the exact map and the parameterized
sequence stays empty. -/
theorem c1_counterexample :
    ((addRoute emptyRouter "GET" "/files/*rest" 5 []).routes "GET").params
        = [] ∧
    mapLookup ((addRoute emptyRouter "GET" "/files/*rest" 5 []).routes
        "GET").exact "/files/*rest" = some ⟨"GET", "/files/*rest", 5, []⟩ := by
  decide

/-- Claim C1 as amended: classification is by presence of `:` in the path
(wildcard-only patterns without `:` go to the exact map).  Under that
criterion the invariant holds: `AddRoute` and `RenameRoute` preserve the
classified filing (every exact key is `:`-free and keyed by the route's own
path, every parameterized route's path contains `:`), renaming re-evaluates
the classification, and no path is filed in both structures. -/
theorem c1_amended_classification (rt : RouterT) (hinv : invRouter rt) :
    (∀ method path handler ms,
        invRouter (addRoute rt method path handler ms)) ∧
    (∀ method oldPath newPath,
        invRouter (renameRoute rt method oldPath newPath)) ∧
    (∀ m p r, mapLookup (rt.routes m).exact p = some r →
        ∀ q ∈ (rt.routes m).params, ¬ q.path = p) := by
  refine ⟨fun method path handler ms =>
      invRouter_addRoute rt hinv method path handler ms,
    fun method oldPath newPath =>
      invRouter_renameRoute rt hinv method oldPath newPath, ?_⟩
  intro m p r hl q hq hqp
  rcases hinv m with ⟨hex, hpar⟩
  have h1 := (hex (p, r) (mapLookup_mem hl)).1
  have h2 := hpar q hq
  rw [hqp] at h2
  rw [h2] at h1
  cases h1

/-- Claim C1 witness: the amended invariant applied to a concrete router. -/
theorem c1_witness :
    invRouter (addRoute emptyRouter "GET" "/users/:id" 1 []) := by
  have hempty : invRouter emptyRouter := by
    intro m
    constructor
    · intro e he
      simp [emptyRouter, emptyMR] at he
    · intro r hr
      simp [emptyRouter, emptyMR] at hr
  exact (c1_amended_classification emptyRouter hempty).1 "GET" "/users/:id" 1 []

/-- Claim C2, counterexample: the matcher accepts pattern `/ab` against path
`/a/b` although the two differ after merely normalizing repeated, leading
and trailing slashes — the matcher in fact ignores slash positions
altogether. -/
theorem c2_counterexample :
    utilsMatchRoute "/ab" "/a/b" = some [] ∧
    ¬ specNormalize "/ab" = specNormalize "/a/b" := by
  decide

/-- Claim C2 as amended: for every pattern containing neither `:` nor `*`,
the matcher succeeds (with an empty parameter map) exactly when pattern and
path are equal after deleting every slash character — slashes only separate
comparison runs and their positions are not enforced; any mismatch of
non-slash characters yields failure with no parameters. -/
theorem c2_literal_match (pattern path : String)
    (hp : ∀ c ∈ pattern.toList, ¬ c = ':' ∧ ¬ c = '*') :
    utilsMatchRoute pattern path =
      if pattern.toList.filter (fun c => ¬ c = '/') =
          path.toList.filter (fun c => ¬ c = '/')
      then some [] else none :=
  utilsMatchRoute_literal pattern path hp

/-- Claim C2 witness: the amended characterization applied to a literal
pattern, with slash normalization on the path side. -/
theorem c2_witness : utilsMatchRoute "/users" "//users/" = some [] := by
  rw [c2_literal_match "/users" "//users/" (by decide)]
  decide

/-- Claim C8: the spec's parameter and wildcard examples hold of the pure
matcher: `/users/:id` matches `/users/42` binding `id` to `42`, fails on
`/users/42/extra`, and `/files/*rest` matches `/files/a/b/c` binding `rest`
to `a/b/c`. -/
theorem c8_matcher_examples :
    utilsMatchRoute "/users/:id" "/users/42" = some [("id", "42")] ∧
    utilsMatchRoute "/users/:id" "/users/42/extra" = none ∧
    utilsMatchRoute "/files/*rest" "/files/a/b/c" = some [("rest", "a/b/c")] := by
  decide

/-! ## Claims C3 and C10: lookup order -/

/-- The parameterized scan either fails everywhere, or succeeds at the first
matching index with every earlier route failing. -/
lemma firstMatch_spec (q : String) (l : List Route) :
    (firstMatch q l = none ∧ ∀ r ∈ l, utilsMatchRoute r.path q = none) ∨
    (∃ i, ∃ h : i < l.length, ∃ ps,
      utilsMatchRoute (l.get ⟨i, h⟩).path q = some ps ∧
      (∀ r ∈ l.take i, utilsMatchRoute r.path q = none) ∧
      firstMatch q l = some (l.get ⟨i, h⟩, ps)) := by
  induction l with
  | nil => exact Or.inl ⟨rfl, by simp⟩
  | cons r rest ih =>
    rcases hm : utilsMatchRoute r.path q with _ | ps
    · rcases ih with ⟨h1, h2⟩ | ⟨i, hi, ps, hmi, htake, hfm⟩
      · refine Or.inl ⟨?_, ?_⟩
        · rw [firstMatch, hm, h1]
        · intro x hx
          rcases List.mem_cons.1 hx with h3 | h3
          · rw [h3]; exact hm
          · exact h2 x h3
      · refine Or.inr ⟨i + 1, by simpa using Nat.succ_lt_succ hi, ps, ?_, ?_, ?_⟩
        · simpa using hmi
        · intro x hx
          rw [List.take_succ_cons] at hx
          rcases List.mem_cons.1 hx with h3 | h3
          · rw [h3]; exact hm
          · exact htake x h3
        · rw [firstMatch, hm]
          simpa using hfm
    · refine Or.inr ⟨0, by simp, ps, by simpa using hm, by simp, ?_⟩
      rw [firstMatch, hm]
      rfl

/-- Claim C3: route lookup consults the exact map first and returns that
route (with nil parameters) on a hit; otherwise it scans the parameterized
routes in stored (insertion) order and returns the first whose pattern
matches — every route before the returned index fails to match, so no
specificity or priority reordering takes place. -/
theorem c3_lookup_order (rt : RouterT) (method path : String) :
    (∀ r, mapLookup (rt.routes method).exact path = some r →
        routerMatchRoute rt method path = some (r, none)) ∧
    (mapLookup (rt.routes method).exact path = none →
      ((routerMatchRoute rt method path = none ∧
        ∀ r ∈ (rt.routes method).params, utilsMatchRoute r.path path = none) ∨
       (∃ i, ∃ h : i < (rt.routes method).params.length, ∃ ps,
          utilsMatchRoute (((rt.routes method).params).get ⟨i, h⟩).path path
            = some ps ∧
          (∀ r ∈ ((rt.routes method).params).take i,
            utilsMatchRoute r.path path = none) ∧
          routerMatchRoute rt method path
            = some (((rt.routes method).params).get ⟨i, h⟩, some ps)))) := by
  constructor
  · intro r hr
    rw [routerMatchRoute]
    simp only [hr]
  · intro hnone
    rcases firstMatch_spec path (rt.routes method).params with
      ⟨h1, h2⟩ | ⟨i, hi, ps, hmi, htake, hfm⟩
    · refine Or.inl ⟨?_, h2⟩
      rw [routerMatchRoute]
      simp only [hnone, h1, Option.map_none']
    · refine Or.inr ⟨i, hi, ps, hmi, htake, ?_⟩
      rw [routerMatchRoute]
      simp only [hnone, hfm, Option.map_some']

/-- Claim C3 witness: an exact hit on a concrete router. -/
theorem c3_witness :
    routerMatchRoute (addRoute emptyRouter "GET" "/a" 3 []) "GET" "/a"
      = some (⟨"GET", "/a", 3, []⟩, none) :=
  (c3_lookup_order (addRoute emptyRouter "GET" "/a" 3 []) "GET" "/a").1
    ⟨"GET", "/a", 3, []⟩ (by decide)

/-- If every route of the first block fails to match, the scan continues in
the second block. -/
lemma firstMatch_append_none (q : String) (l1 l2 : List Route)
    (h : ∀ r ∈ l1, utilsMatchRoute r.path q = none) :
    firstMatch q (l1 ++ l2) = firstMatch q l2 := by
  induction l1 with
  | nil => rfl
  | cons r rest ih =>
    rw [List.cons_append, firstMatch, h r (by simp)]
    exact ih (fun x hx => h x (List.mem_cons_of_mem r hx))

/-- Adding a parameterized route appends to the slice and leaves the exact
map unchanged. -/
lemma addRoute_param_append (rt : RouterT) (method path : String)
    (handler : Nat) (hc : containsChar path ':' = true) :
    ((addRoute rt method path handler []).routes (toUpperStr method)).params
      = (rt.routes (toUpperStr method)).params ++
        [⟨toUpperStr method, path, handler, []⟩] ∧
    ((addRoute rt method path handler []).routes (toUpperStr method)).exact
      = (rt.routes (toUpperStr method)).exact ∧
    (∀ m, ¬ m = toUpperStr method →
      (addRoute rt method path handler []).routes m = rt.routes m) := by
  refine ⟨?_, ?_, ?_⟩
  · simp [addRoute, updState, hc]
  · simp [addRoute, updState, hc]
  · intro m hm
    simp [addRoute, updState, hm]

/-- Lookup in a map right after inserting the key. -/
lemma mapLookup_mapInsert_self (m : List (String × Route)) (k : String)
    (v : Route) : mapLookup (mapInsert m k v) k = some v := by
  rw [mapLookup, mapInsert]
  rw [List.find?_append]
  have h1 : (m.filter (fun e => ¬ e.1 = k)).find? (fun e => e.1 = k)
      = none := by
    apply List.find?_eq_none.2
    intro x hx
    have := (List.mem_filter.1 hx).2
    simpa using this
  rw [h1]
  simp [List.find?]

/-- Claim C10: registering the same parameterized pattern twice appends a
second slice entry instead of overwriting; lookup still returns the first
registration, so the second handler is unreachable on any path both match —
whereas registering the same exact (`:`-free) path twice silently replaces
the stored route. -/
theorem c10_duplicate_param_registration (rt : RouterT) (method P q : String)
    (h1 h2 : Nat) (prms : List (String × String))
    (hP : containsChar P ':' = true)
    (hm : utilsMatchRoute P q = some prms)
    (hnoexact : mapLookup ((rt.routes (toUpperStr method)).exact) q = none)
    (hnoprev : ∀ r ∈ (rt.routes (toUpperStr method)).params,
        utilsMatchRoute r.path q = none) :
    (((addRoute (addRoute rt method P h1 []) method P h2 []).routes
        (toUpperStr method)).params
      = (rt.routes (toUpperStr method)).params ++
        [⟨toUpperStr method, P, h1, []⟩, ⟨toUpperStr method, P, h2, []⟩]) ∧
    routerMatchRoute (addRoute (addRoute rt method P h1 []) method P h2 [])
        (toUpperStr method) q
      = some (⟨toUpperStr method, P, h1, []⟩, some prms) ∧
    (¬ h1 = h2 →
      ¬ routerMatchRoute (addRoute (addRoute rt method P h1 []) method P h2 [])
          (toUpperStr method) q
        = some (⟨toUpperStr method, P, h2, []⟩, some prms)) ∧
    (∀ Q g1 g2, containsChar Q ':' = false →
      mapLookup (((addRoute (addRoute rt method Q g1 []) method Q g2 []).routes
          (toUpperStr method)).exact) Q
        = some ⟨toUpperStr method, Q, g2, []⟩) := by
  rcases addRoute_param_append rt method P h1 hP with ⟨hp1, he1, _⟩
  rcases addRoute_param_append (addRoute rt method P h1 []) method P h2 hP
    with ⟨hp2, he2, _⟩
  have hparams : ((addRoute (addRoute rt method P h1 []) method P h2
      []).routes (toUpperStr method)).params
      = (rt.routes (toUpperStr method)).params ++
        [⟨toUpperStr method, P, h1, []⟩, ⟨toUpperStr method, P, h2, []⟩] := by
    rw [hp2, hp1, List.append_assoc]
    rfl
  have hexact : ((addRoute (addRoute rt method P h1 []) method P h2
      []).routes (toUpperStr method)).exact
      = (rt.routes (toUpperStr method)).exact := by
    rw [he2, he1]
  have hlook : routerMatchRoute (addRoute (addRoute rt method P h1 [])
      method P h2 []) (toUpperStr method) q
      = some (⟨toUpperStr method, P, h1, []⟩, some prms) := by
    rw [routerMatchRoute]
    simp only [hexact, hnoexact, hparams]
    rw [firstMatch_append_none q _ _ hnoprev, firstMatch]
    simp only [hm, Option.map_some']
  refine ⟨hparams, hlook, ?_, ?_⟩
  · intro hne hcon
    rw [hlook] at hcon
    injection hcon with hcon2
    injection hcon2 with hroute _
    injection hroute
    exact hne (by assumption)
  · intro Q g1 g2 hQ
    have hq2 : ((addRoute (addRoute rt method Q g1 []) method Q g2
        []).routes (toUpperStr method)).exact
        = mapInsert (((addRoute rt method Q g1 []).routes
            (toUpperStr method)).exact) Q ⟨toUpperStr method, Q, g2, []⟩ := by
      simp [addRoute, updState, hQ]
    rw [hq2, mapLookup_mapInsert_self]

/-- Claim C10 witness: duplicate registration of `/users/:id` on a concrete
router; the lookup for `/users/42` returns the first handler. -/
theorem c10_witness :
    routerMatchRoute (addRoute (addRoute emptyRouter "GET" "/users/:id" 1 [])
        "GET" "/users/:id" 2 []) "GET" "/users/42"
      = some (⟨"GET", "/users/:id", 1, []⟩, some [("id", "42")]) :=
  (c10_duplicate_param_registration emptyRouter "GET" "/users/:id" "/users/42"
    1 2 [("id", "42")] (by decide) (by decide) (by decide)
    (by intro r hr; simp [emptyRouter, emptyMR] at hr)).2.1

/-! ## Claim C9: middleware removal by identity -/

/-- Model of `updateFirstRoute` finds the first satisfying route: the result replaces
exactly that route, in place. -/
lemma updateFirstRoute_eq (p : Route → Bool) (f : Route → Route) :
    ∀ {l1 : List Route} {r : Route} {l2 : List Route},
      (∀ x ∈ l1, p x = false) → p r = true →
      updateFirstRoute p f (l1 ++ r :: l2) = some (l1 ++ f r :: l2) := by
  intro l1
  induction l1 with
  | nil =>
    intro r l2 _ hr
    rw [List.nil_append, updateFirstRoute, if_pos hr, List.nil_append]
  | cons a rest ih =>
    intro r l2 hall hr
    have ha : p a = false := hall a (by simp)
    rw [List.cons_append, updateFirstRoute, if_neg (by simp [ha]),
      ih (fun x hx => hall x (List.mem_cons_of_mem a hx)) hr]
    rfl

/-- Removal keeps exactly the entries whose identity differs from every
removed handler; with a single handler `m` the predicate is identity
inequality with `m`. -/
lemma removeFromRoute_single (r : Route) (m : Nat) :
    (removeFromRoute [m] r).middlewares
      = r.middlewares.filter (fun e => ¬ e.id = m) := by
  rw [removeFromRoute]
  simp only []
  congr 1
  funext e
  simp [middlewareIDsEqual, eq_comm]

/-- Claim C9: removing a handler `m` from a route removes exactly the
middleware entries whose identity equals `m`'s registration identity
(`wrapMiddleware m` always carries identity `m`, so two registrations of the
same handler compare equal), and the surviving entries keep their relative
order (the filtered list is a sublist of the original).  Both the exact-map
branch and the parameterized branch of `RemoveMiddleware` are covered. -/
theorem c9_remove_middleware (rt : RouterT) (method path : String) (m : Nat) :
    ((wrapMiddleware m).id = m ∧
     ∀ L : List MiddlewareEntry,
       List.Sublist (L.filter (fun e => ¬ e.id = m)) L ∧
       (∀ e ∈ L, (e ∈ L.filter (fun e => ¬ e.id = m) ↔ ¬ e.id = m))) ∧
    (∀ r, mapLookup ((rt.routes (toUpperStr method)).exact) path = some r →
      mapLookup (((removeMiddleware rt method path [m]).routes
          (toUpperStr method)).exact) path
        = some { r with middlewares :=
            r.middlewares.filter (fun e => ¬ e.id = m) }) ∧
    (mapLookup ((rt.routes (toUpperStr method)).exact) path = none →
      ∀ l1 r l2, (rt.routes (toUpperStr method)).params = l1 ++ r :: l2 →
        r.path = path → (∀ x ∈ l1, ¬ x.path = path) →
        ((removeMiddleware rt method path [m]).routes
            (toUpperStr method)).params
          = l1 ++ { r with middlewares :=
              r.middlewares.filter (fun e => ¬ e.id = m) } :: l2) := by
  refine ⟨⟨rfl, ?_⟩, ?_, ?_⟩
  · intro L
    refine ⟨List.filter_sublist L, ?_⟩
    intro e he
    constructor
    · intro hmem
      have := (List.mem_filter.1 hmem).2
      simpa using this
    · intro hne
      exact List.mem_filter.2 ⟨he, by simpa using hne⟩
  · intro r hr
    rw [removeMiddleware]
    simp only [hr]
    simp only [updState, if_pos rfl, if_true]
    rw [mapLookup_mapInsert_self]
    have hrr2 : removeFromRoute [m] r
        = ({ r with middlewares :=
            r.middlewares.filter (fun e => ¬ e.id = m) }) := by
      rw [← removeFromRoute_single r m]
      rfl
    rw [hrr2]
  · intro hnone l1 r l2 hsplit hrp hl1
    have hrr : removeFromRoute [m] r
        = ({ r with middlewares :=
            r.middlewares.filter (fun e => ¬ e.id = m) }) := by
      rw [← removeFromRoute_single r m]
      rfl
    rw [removeMiddleware]
    simp only [hnone, hsplit]
    rw [updateFirstRoute_eq (fun x => x.path = path) (removeFromRoute [m])
      (fun x hx => by simpa using hl1 x hx) (by simpa using hrp)]
    simp only [updState, if_pos rfl, if_true, hrr]

/-- Claim C9 witness: registering handler 1 twice around handler 2 and
removing handler 1 removes both copies and keeps handler 2. -/
theorem c9_witness :
    mapLookup (((removeMiddleware (addRoute emptyRouter "GET" "/p" 9 [1, 2, 1])
        "GET" "/p" [1]).routes "GET").exact) "/p"
      = some ⟨"GET", "/p", 9, [⟨2, 2⟩]⟩ :=
  (c9_remove_middleware (addRoute emptyRouter "GET" "/p" 9 [1, 2, 1])
      "GET" "/p" 1).2.1
    ⟨"GET", "/p", 9, [⟨1, 1⟩, ⟨2, 2⟩, ⟨1, 1⟩]⟩ (by decide)

/-! ## Claim C4: group prefix invariant and re-registration -/

/-- The group invariant: each child's effective path is the group's
accumulated prefix followed by the child's relative path. -/
def groupInv (g : GroupT) : Prop :=
  ∀ gr ∈ g.routes, gr.effectivePath = g.pfx ++ gr.relPath

/-- The fold of `ChangePrefix` rebuilds the descriptor list in order, with
every effective path re-derived from the new prefix. -/
lemma changeStep_foldl_routes (newPfx : String) :
    ∀ (l : List GroupRoute) (acc : List GroupRoute × RouterT),
      (l.foldl (changeStep newPfx) acc).1
        = acc.1 ++ l.map (fun gr =>
            { gr with effectivePath := newPfx ++ gr.relPath }) := by
  intro l
  induction l with
  | nil => intro acc; simp
  | cons gr rest ih =>
    intro acc
    rw [List.foldl_cons, ih, List.map_cons]
    rw [changeStep]
    simp

/-- Claim C4: the invariant `effective_path = accumulated_prefix +
relative_path` is established by `Group.AddRoute`, preserved by subgrouping
(the subgroup accumulates the parent prefix), and re-established by
`ChangePrefix`, which re-derives every child's effective path; on the
spec's example the old effective path `/api/users` becomes a lookup miss
and `/v2/users` a hit carrying the same handler and the same flattened
middleware set. -/
theorem c4_group_prefix :
    (∀ g rt method relPath handler m, groupInv g →
        groupInv (groupAddRoute g rt method relPath handler m).1) ∧
    (∀ g pfx m, (groupSub g pfx m).pfx = g.pfx ++ pfx ∧
        groupInv (groupSub g pfx m)) ∧
    (∀ g rt newPfx, groupInv g → groupInv (changePfx g rt newPfx).1) ∧
    (routerMatchRoute (changePfx
        (groupAddRoute (routerGroup "/api" [3]) emptyRouter
          "GET" "/users" 7 [5]).1
        (groupAddRoute (routerGroup "/api" [3]) emptyRouter
          "GET" "/users" 7 [5]).2 "/v2").2 "GET" "/api/users" = none ∧
     routerMatchRoute (changePfx
        (groupAddRoute (routerGroup "/api" [3]) emptyRouter
          "GET" "/users" 7 [5]).1
        (groupAddRoute (routerGroup "/api" [3]) emptyRouter
          "GET" "/users" 7 [5]).2 "/v2").2 "GET" "/v2/users"
       = some (⟨"GET", "/v2/users", 7, [⟨3, 3⟩, ⟨5, 5⟩]⟩, none) ∧
     routerMatchRoute (groupAddRoute (routerGroup "/api" [3]) emptyRouter
          "GET" "/users" 7 [5]).2 "GET" "/api/users"
       = some (⟨"GET", "/api/users", 7, [⟨3, 3⟩, ⟨5, 5⟩]⟩, none)) := by
  refine ⟨?_, ?_, ?_, by decide⟩
  · intro g rt method relPath handler m hinv gr hgr
    rw [groupAddRoute] at hgr
    simp only [] at hgr
    rcases List.mem_append.1 hgr with h1 | h1
    · exact hinv gr h1
    · simp at h1
      rw [h1]
      simp [groupAddRoute]
  · intro g pfx m
    refine ⟨rfl, ?_⟩
    intro gr hgr
    simp [groupSub] at hgr
  · intro g rt newPfx hinv
    rw [changePfx]
    by_cases he : g.pfx = newPfx
    · rw [if_pos he]
      exact hinv
    · rw [if_neg he]
      intro gr hgr
      simp only [] at hgr
      rw [changeStep_foldl_routes newPfx g.routes ([], rt)] at hgr
      simp only [List.nil_append] at hgr
      rcases List.mem_map.1 hgr with ⟨gr0, _, hgr0⟩
      rw [← hgr0]

/-- Claim C4 witness: the invariant parts applied to the example group. -/
theorem c4_witness :
    groupInv (groupAddRoute (routerGroup "/api" [3]) emptyRouter
      "GET" "/users" 7 [5]).1 :=
  c4_group_prefix.1 (routerGroup "/api" [3]) emptyRouter "GET" "/users" 7 [5]
    (by intro gr hgr; simp [routerGroup] at hgr)

/-! ## Claim C5: chain composition and execution order -/

/-- Running a chain of handlers that all continue: every handler is invoked
in order (appended to the log), the cursor ends past the last entry, and
nothing else of the context changes. -/
lemma runChainH_allNext (env : Nat → HandlerKind) :
    ∀ (ids : List Nat) (c : Ctx), (∀ i ∈ ids, env i = .hNext) →
      runChainH env ids c
        = .ok { c with idx := c.idx + ids.length, log := c.log ++ ids } := by
  intro ids
  induction ids with
  | nil =>
    intro c _
    rcases c with ⟨m, p, a, ch, i, lg, pr, prs, st, b, ce⟩
    simp [runChainH]
  | cons i rest ih =>
    intro c hall
    rw [runChainH]
    simp only [hall i (by simp)]
    rw [ih _ (fun j hj => hall j (List.mem_cons_of_mem i hj))]
    rcases c with ⟨m, p, a, ch, ix, lg, pr, prs, st, b, ce⟩
    simp
    omega

/-- Walking the dispatch chain across a block of all-continuing handlers. -/
lemma runChainTop_hBlock (rt : RouterT) (fs : String → Option String)
    (wd : String) (env : Nat → HandlerKind) :
    ∀ (ids : List Nat) (rest : List ChainEntry) (c : Ctx),
      (∀ i ∈ ids, env i = .hNext) →
      runChainTop rt fs wd env (ids.map ChainEntry.h ++ rest) c
        = runChainTop rt fs wd env rest
            { c with idx := c.idx + ids.length, log := c.log ++ ids } := by
  intro ids
  induction ids with
  | nil =>
    intro rest c _
    rcases c with ⟨m, p, a, ch, i, lg, pr, prs, st, b, ce⟩
    simp
  | cons i rest2 ih =>
    intro rest c hall
    rw [List.map_cons, List.cons_append, runChainTop]
    simp only [hall i (by simp)]
    rw [ih rest _ (fun j hj => hall j (List.mem_cons_of_mem i hj))]
    rcases c with ⟨m, p, a, ch, ix, lg, pr, prs, st, b, ce⟩
    simp
    congr 2
    omega

/-- Field bookkeeping for the compression post-step: the body content is
preserved (the byte compressors are modelled content-preserving), only the
content-encoding changes, and it changes per the compression policy. -/
lemma postCompress_fields (c : Ctx) :
    (postCompress c).log = c.log ∧ (postCompress c).body = c.body ∧
    (postCompress c).method = c.method ∧ (postCompress c).path = c.path ∧
    (postCompress c).acceptEncoding = c.acceptEncoding ∧
    (postCompress c).status = c.status ∧
    (postCompress c).contentEncoding = (if c.body = "" then c.contentEncoding
      else (compressData c.acceptEncoding c.body).2) := by
  rcases c with ⟨m, p, a, ch, ix, lg, pr, prs, st, b, ce⟩
  by_cases hb : b = ""
  · subst hb
    simp [postCompress]
  · simp only [postCompress, compressData]
    rw [if_neg hb, if_neg hb]
    by_cases h1 : containsSubstr a "br"
    · simp [h1]
    · by_cases h2 : containsSubstr a "gzip" <;> simp [h1, h2]

lemma serveRouteM_allNext (env : Nat → HandlerKind) (r : Route) (c : Ctx)
    (henv : ∀ i, env i = .hNext) :
    ∃ c2, serveRouteM env r c = .ok c2 ∧
      c2.log = c.log ++ r.middlewares.map (fun e => e.handler) ++ [r.handler] ∧
      c2.body = c.body ∧ c2.method = c.method ∧ c2.path = c.path ∧
      c2.acceptEncoding = c.acceptEncoding ∧ c2.status = c.status ∧
      c2.contentEncoding = (if c.body = "" then c.contentEncoding
        else (compressData c.acceptEncoding c.body).2) := by
  rw [serveRouteM]
  rw [runChainH_allNext env
    (r.middlewares.map (fun e => e.handler) ++ [r.handler]) _
    (fun i _ => henv i)]
  refine ⟨_, rfl, ?_⟩
  rcases postCompress_fields ({ c with
      chain := (r.middlewares.map (fun e => e.handler) ++
        [r.handler]).map ChainEntry.h,
      idx := 0 + (r.middlewares.map (fun e => e.handler) ++
        [r.handler]).length,
      log := c.log ++ (r.middlewares.map (fun e => e.handler) ++
        [r.handler]) }) with ⟨h1, h2, h3, h4, h5, h6, h7⟩
  rcases c with ⟨m, p, a, ch, ix, lg, pr, prs, st, b, ce⟩
  simp only [] at h1 h2 h3 h4 h5 h6 h7
  rw [h1, h2, h3, h4, h5, h6, h7]
  simp [List.append_assoc]

/-- Claim C5: when every handler in the chain calls the continue operation,
a dispatched request that matches a route executes exactly the global
middlewares in registration order, then the route-specific middlewares in
registration order, then the terminal handler (observed through the
invocation log), and the body-compression post-step runs after the chain
completes. -/
theorem c5_dispatch_order (rt : RouterT) (fs : String → Option String)
    (wd : String) (env : Nat → HandlerKind) (c : Ctx) (r : Route)
    (pOpt : Option (List (String × String)))
    (henv : ∀ i, env i = .hNext)
    (hmatch : routerMatchRoute rt c.method c.path = some (r, pOpt)) :
    ∃ c2, dispatchRun rt fs wd env c = .ok c2 ∧
      c2.log = c.log ++ rt.globalMiddlewares.map (fun e => e.handler) ++
        r.middlewares.map (fun e => e.handler) ++ [r.handler] ∧
      c2.body = c.body ∧
      c2.contentEncoding = (if c.body = "" then c.contentEncoding
        else (compressData c.acceptEncoding c.body).2) := by
  rcases c with ⟨m, p, a, ch, ix, lg, pr, prs, st, b, ce⟩
  simp only [] at hmatch
  rw [dispatchRun, NextM]
  have hmap : rt.globalMiddlewares.map (fun e => ChainEntry.h e.handler)
      = (rt.globalMiddlewares.map (fun e => e.handler)).map ChainEntry.h := by
    rw [List.map_map]
    rfl
  simp only [hmap, List.drop_zero]
  rw [runChainTop_hBlock rt fs wd env
    (rt.globalMiddlewares.map (fun e => e.handler)) [ChainEntry.routeFn] _
    (fun i _ => henv i)]
  rw [runChainTop, nextFuncM]
  simp only [hmatch]
  rcases pOpt with _ | ps
  · rcases serveRouteM_allNext env r _ henv with
      ⟨c5, heq, hlog, hbody, _, _, _, _, henc⟩
    refine ⟨c5, heq, ?_, ?_, ?_⟩
    · rw [hlog]
    · simpa using hbody
    · simpa using henc
  · rcases serveRouteM_allNext env r _ henv with
      ⟨c5, heq, hlog, hbody, _, _, _, _, henc⟩
    refine ⟨c5, heq, ?_, ?_, ?_⟩
    · rw [hlog]
    · simpa using hbody
    · simpa using henc

/-- Claim C5 witness: globals 10 then 11, route handler 12 with route
middleware 5 — the log is exactly 10, 11, 5, 12. -/
theorem c5_witness :
    ∃ c2, dispatchRun (addRoute (useR emptyRouter [10, 11]) "GET" "/h" 12 [5])
        (fun _ => none) "/" (fun _ => .hNext)
        ⟨"GET", "/h", "", [], 0, [], [], false, 200, "", none⟩ = .ok c2 ∧
      c2.log = [10, 11, 5, 12] ∧ c2.body = "" ∧ c2.contentEncoding = none := by
  rcases c5_dispatch_order (addRoute (useR emptyRouter [10, 11]) "GET" "/h"
      12 [5]) (fun _ => none) "/" (fun _ => .hNext)
      ⟨"GET", "/h", "", [], 0, [], [], false, 200, "", none⟩
      ⟨"GET", "/h", 12, [⟨5, 5⟩]⟩ none (fun i => rfl) (by decide) with
    ⟨c2, heq, hlog, hbody, henc⟩
  exact ⟨c2, heq, by simpa using hlog, hbody, by simpa using henc⟩

/-! ## Claims C6 and C7 -/

/-- Claim C6, counterexample: the current router's `Next` (part_001) returns
a failing handler's error unchanged — the result is the handler's own
message, not the positionally wrapped `middleware[0] error: ...` the claim
describes (that wrapping exists only in the snapshot `Router.Next` of
router.go). -/
theorem c6_counterexample :
    NextM emptyRouter (fun _ => none) "/"
      (fun i => if i = 7 then .hErr "boom" else .hNext)
      ⟨"GET", "/", "", [ChainEntry.h 7], 0, [], [], false, 200, "", none⟩
      = .error "boom" ∧
    ¬ "boom" = "middleware[0] error: boom" := by
  decide

/-- Claim C6 as amended: `Next` reads the cursor and chain from
request-scoped storage; at or past the end of the chain it is a successful
no-op; otherwise it advances the cursor and invokes the handler that was at
the cursor position (a non-continuing handler leaves the cursor advanced by
one and its invocation logged; a continuing handler's result is `Next` on
the advanced state), and a handler error is propagated unchanged — without
positional wrapping; the positional `middleware[idx] error:` wrapping is
the behaviour of the historical `Router.Next` snapshot (src/router.go). -/
theorem c6_next_contract :
    (∀ rt fs wd env (c : Ctx), c.chain.length ≤ c.idx →
        NextM rt fs wd env c = .ok c) ∧
    (∀ rt fs wd env (c : Ctx) (hid : Nat) rest,
        c.chain.drop c.idx = ChainEntry.h hid :: rest →
        (env hid = .hStop →
          NextM rt fs wd env c
            = .ok { c with idx := c.idx + 1, log := c.log ++ [hid] }) ∧
        (∀ msg, env hid = .hErr msg →
          NextM rt fs wd env c = .error msg) ∧
        (env hid = .hNext →
          NextM rt fs wd env c
            = runChainTop rt fs wd env rest
                { c with idx := c.idx + 1, log := c.log ++ [hid] })) ∧
    (∀ env (c : CtxRG) (hid : Nat) rest msg,
        c.chain.drop c.idx = hid :: rest → env hid = .hErr msg →
        NextRG env c
          = .error ("middleware[" ++ toString c.idx ++ "] error: " ++ msg)) := by
  refine ⟨?_, ?_, ?_⟩
  · intro rt fs wd env c hlen
    rw [NextM, List.drop_eq_nil_of_le hlen, runChainTop]
  · intro rt fs wd env c hid rest hdrop
    refine ⟨?_, ?_, ?_⟩
    · intro hk
      rw [NextM, hdrop, runChainTop]
      simp only [hk]
    · intro msg hk
      rw [NextM, hdrop, runChainTop]
      simp only [hk]
    · intro hk
      rw [NextM, hdrop, runChainTop]
      simp only [hk]
  · intro env c hid rest msg hdrop hk
    rw [NextRG, hdrop, runChainRG]
    simp only [hk]

/-- Claim C6 witness: the no-op clause on an empty chain, and the unwrapped
error clause at cursor 0. -/
theorem c6_witness :
    NextM emptyRouter (fun _ => none) "/" (fun _ => .hNext)
      ⟨"GET", "/", "", [], 0, [], [], false, 200, "", none⟩
      = .ok ⟨"GET", "/", "", [], 0, [], [], false, 200, "", none⟩ :=
  c6_next_contract.1 emptyRouter (fun _ => none) "/" (fun _ => .hNext)
    ⟨"GET", "/", "", [], 0, [], [], false, 200, "", none⟩ (by decide)

/-- Claim C7: the containment check of the static branch compares resolved
absolute paths with a bare string-prefix test and therefore does not reject
every path resolving outside the root.  The request path
`/static../staticX` under static route (`/static` → `/data/static`)
resolves to `/data/staticX`, which lies outside the root directory `
/data/static`, yet the check passes (`proceed`), and with the target file
absent the dispatcher answers 404 instead of the claimed Forbidden; an
honest traversal such as `/static..` (resolving to `/data`) is rejected
with 403, which shows the check fires only when the absolute file path
fails the string-prefix test. -/
theorem c7_traversal_check_bypass :
    staticResolve "/" ⟨"/static", "/data/static", "", false, 0⟩
      "/static../staticX"
      = .proceed "/data/staticX" "/data/staticX" "/data/static" ∧
    specWithin "/data/static" "/data/staticX" = false ∧
    dispatchRun (addStatic emptyRouter "/static" "/data/static")
      (fun _ => none) "/" (fun _ => .hNext)
      ⟨"GET", "/static../staticX", "", [], 0, [], [], false, 200, "", none⟩
      = .ok ⟨"GET", "/static../staticX", "",
          [ChainEntry.routeFn], 1, [], [], false, 404,
          "Dynamic route not found", none⟩ ∧
    dispatchRun (addStatic emptyRouter "/static" "/data/static")
      (fun _ => none) "/" (fun _ => .hNext)
      ⟨"GET", "/static..", "", [], 0, [], [], false, 200, "", none⟩
      = .ok ⟨"GET", "/static..", "",
          [ChainEntry.routeFn], 1, [], [], false, 403, "Forbidden", none⟩ := by
  decide

end RouterSpec
